import Mathlib

/-!
Verification of the box-geometry core of the `pdftables` repository
(`pdftables/boxes.py`): the `Rectangle`/`Box` value model, clipping with the
degenerate `empty_box` sentinel, box adjacency (`is_connected_to`) and merge
(`extend`), the `BoxList` collection operations (`bounds`, `inside`,
`purge_empty_text`) and `Histogram` tolerance rounding (`rounder`).

Numbers are modelled as rationals; the coordinates of a box live in `Coord`,
the rationals extended with `+inf` and `-inf`, because the `empty_box`
sentinel is `Rectangle(x1=+inf, y1=+inf, x2=-inf, y2=-inf)`.  Operations that
can raise in Python (attribute access on a missing `text`/`classname`,
`min`/`max` over an empty sequence) return `Option`.
-/

/-- A page coordinate: a rational number, `-inf`, or `+inf`.  Python floats
are modelled as rationals; the infinities are needed only for the
`empty_box` sentinel. -/
inductive Coord where
  | negInf : Coord
  | fin : ℚ → Coord
  | posInf : Coord
deriving DecidableEq, Repr

/-- Order-embedding of `Coord` into `WithBot (WithTop ℚ)`, used to transfer
the linear order. -/
def Coord.toW : Coord → WithBot (WithTop ℚ)
  | Coord.negInf => ⊥
  | Coord.fin q => ((q : WithTop ℚ) : WithBot (WithTop ℚ))
  | Coord.posInf => ((⊤ : WithTop ℚ) : WithBot (WithTop ℚ))

theorem Coord.toW_injective : Function.Injective Coord.toW := by
  intro a b h
  cases a <;> cases b <;>
    simp [Coord.toW, WithBot.coe_eq_coe, WithTop.coe_eq_coe] at h ⊢
  exact h

instance : LinearOrder Coord := LinearOrder.lift' Coord.toW Coord.toW_injective

theorem Coord.le_iff_toW (a b : Coord) : a ≤ b ↔ Coord.toW a ≤ Coord.toW b := Iff.rfl

theorem Coord.le_posInf (c : Coord) : c ≤ Coord.posInf := by
  rw [Coord.le_iff_toW]
  cases c <;> simp [Coord.toW]

theorem Coord.negInf_le (c : Coord) : Coord.negInf ≤ c := by
  rw [Coord.le_iff_toW]
  cases c <;> simp [Coord.toW]

theorem Coord.negInf_lt_posInf : Coord.negInf < Coord.posInf := by
  refine lt_of_le_of_ne (Coord.negInf_le _) ?h
  intro h
  exact Coord.noConfusion h

theorem Coord.fin_le_fin (a b : ℚ) : Coord.fin a ≤ Coord.fin b ↔ a ≤ b := by
  rw [Coord.le_iff_toW]
  simp [Coord.toW]

theorem Coord.fin_lt_fin (a b : ℚ) : Coord.fin a < Coord.fin b ↔ a < b := by
  constructor
  · intro h
    rcases lt_or_ge a b with h' | h'
    · exact h'
    · exact absurd (le_of_lt h) (by
        intro hle
        exact absurd ((Coord.fin_le_fin b a).mpr h') (not_le_of_lt
          (lt_of_le_of_ne hle (fun he => (ne_of_lt h) he))))
  · intro h
    refine lt_of_le_of_ne ((Coord.fin_le_fin a b).mpr (le_of_lt h)) ?h
    intro he
    cases he
    exact lt_irrefl a h

/-- `Rectangle` from `boxes.py`: a 4-tuple of coordinates
`(x1, y1, x2, y2) = (left, top, right, bottom)`.  No invariant `x1 ≤ x2` or
`y1 ≤ y2` is enforced. -/
structure Rectangle where
  x1 : Coord
  y1 : Coord
  x2 : Coord
  y2 : Coord
deriving DecidableEq, Repr

def Rectangle.left (r : Rectangle) : Coord := r.x1

def Rectangle.top (r : Rectangle) : Coord := r.y1

def Rectangle.right (r : Rectangle) : Coord := r.x2

def Rectangle.bottom (r : Rectangle) : Coord := r.y2

/-- `Box` from `boxes.py`: a `Rectangle` plus optional metadata.  `text`,
`barycenter` and `barycenter_y` default to `None` in `Box.__init__`;
`classname` is an attribute attached by the external producer (it is read by
`BoxList.purge_empty_text` and friends but never set in `boxes.py`). -/
structure Box where
  rect : Rectangle
  text : Option String := none
  barycenter : Option ℚ := none
  barycenter_y : Option ℚ := none
  classname : Option String := none
deriving DecidableEq, Repr

def Box.left (b : Box) : Coord := b.rect.x1

def Box.top (b : Box) : Coord := b.rect.y1

def Box.right (b : Box) : Coord := b.rect.x2

def Box.bottom (b : Box) : Coord := b.rect.y2

/-- Python's `str.strip()`: remove leading and trailing whitespace. -/
def pyStrip (s : String) : String :=
  String.mk (((s.data.dropWhile Char.isWhitespace).reverse.dropWhile
    Char.isWhitespace).reverse)

/-- Python's `text.endswith("(")`: the last character is an open parenthesis. -/
def endsWithOpenParen (s : String) : Bool :=
  decide (s.data.getLast? = some '(')

/-- The helper `equal(left, right)` inside `Box.is_connected_to`:
`abs(left - right) < TOLERANCE` on Python floats.  When either operand is
infinite the difference is `inf`, `-inf` or `nan`, and the comparison is
`False` in every such case, so only finite operands can be near. -/
def coordNear (a b : Coord) (tol : ℚ) : Bool :=
  match a, b with
  | Coord.fin x, Coord.fin y => decide (|x - y| < tol)
  | _, _ => false

/-- `Box.is_connected_to(next)` from `boxes.py`.  Python raises when it calls
`.strip()` on a `None` text, which the embedding models as `none`; note the
short-circuit of `or`: when `self.text` strips to empty, `next.text` is never
touched. -/
def Box.is_connected_to (self nxt : Box) : Option Bool :=
  match self.text with
  | none => none
  | some st =>
    if pyStrip st = "" then some false
    else
      match nxt.text with
      | none => none
      | some nt =>
        if pyStrip nt = "" then some false
        else
          let tol : ℚ := if endsWithOpenParen st then 10 else 1/2
          some (decide (self.barycenter_y = nxt.barycenter_y) &&
            coordNear self.right nxt.left tol)

/-- `Box.extend(next)` from `boxes.py`, as the value of `self` after the
in-place mutation `self.text += next.text; self.rect =
self.rect._replace(x2=next.right)`.  Python raises a `TypeError` when either
text is `None`. -/
def Box.extend (self nxt : Box) : Option Box :=
  match self.text, nxt.text with
  | some st, some nt =>
      some (Box.mk (Rectangle.mk self.rect.x1 self.rect.y1 nxt.rect.x2 self.rect.y2)
        (some (st ++ nt)) self.barycenter self.barycenter_y self.classname)
  | _, _ => none

/-- `Box.empty_box`: the process-wide sentinel
`Box(Rectangle(x1=+inf, y1=+inf, x2=-inf, y2=-inf))`. -/
def Box.empty_box : Box :=
  Box.mk (Rectangle.mk Coord.posInf Coord.posInf Coord.negInf Coord.negInf)
    none none none none

/-- The inversion test `x1 > x2 or y1 > y2` from `Box.clip`. -/
def Rectangle.inverted (r : Rectangle) : Prop := r.x2 < r.x1 ∨ r.y2 < r.y1

instance (r : Rectangle) : Decidable r.inverted := by
  unfold Rectangle.inverted
  infer_instance

/-- One iteration of the loop in `Box.clip`: intersect the running rectangle
with `r` (`x1 = max(x1, r.left); x2 = min(x2, r.right); y1 = max(y1, r.top);
y2 = min(y2, r.bottom)`). -/
def clipStep (q r : Rectangle) : Rectangle :=
  Rectangle.mk (max q.x1 r.left) (max q.y1 r.top) (min q.x2 r.right) (min q.y2 r.bottom)

/-- The loop of `Box.clip` over the remaining rectangles: after each
intersection, if the running rectangle is inverted, return
`Box.empty_box`; when the rectangles are exhausted return a fresh metadata-free
box around the running rectangle. -/
def clipGo (q : Rectangle) : List Rectangle → Box
  | [] => Box.mk q none none none none
  | r :: rs =>
    let q' := clipStep q r
    if q'.inverted then Box.empty_box else clipGo q' rs

/-- `Box.clip(*rectangles)` from `boxes.py`. -/
def Box.clip (self : Box) (rectangles : List Rectangle) : Box :=
  clipGo self.rect rectangles

/-- The pure running intersection over a list of rectangles (no early exit):
what the loop of `Box.clip` computes when it never detects inversion. -/
def stepAll (q : Rectangle) (rs : List Rectangle) : Rectangle :=
  rs.foldl clipStep q

theorem clipStep_inverted_mono {q : Rectangle} (h : q.inverted) (r : Rectangle) :
    (clipStep q r).inverted := by
  rcases h with h | h
  · exact Or.inl (lt_of_le_of_lt (min_le_left _ _) (lt_of_lt_of_le h (le_max_left _ _)))
  · exact Or.inr (lt_of_le_of_lt (min_le_left _ _) (lt_of_lt_of_le h (le_max_left _ _)))

theorem stepAll_inverted_mono {q : Rectangle} (h : q.inverted) (rs : List Rectangle) :
    (stepAll q rs).inverted := by
  induction rs generalizing q with
  | nil => exact h
  | cons r rs ih => exact ih (clipStep_inverted_mono h r)

theorem stepAll_append (q : Rectangle) (p s : List Rectangle) :
    stepAll q (p ++ s) = stepAll (stepAll q p) s := by
  unfold stepAll
  exact List.foldl_append _ _ _ _

/-- The loop of `Box.clip`, run over at least one rectangle, returns the
`empty_box` sentinel when the full intersection is inverted and otherwise a
fresh box around the full intersection. -/
theorem clipGo_cons_eq (q r : Rectangle) (rs : List Rectangle) :
    clipGo q (r :: rs) =
      if (stepAll q (r :: rs)).inverted then Box.empty_box
      else Box.mk (stepAll q (r :: rs)) none none none none := by
  induction rs generalizing q r with
  | nil => rfl
  | cons r' rs ih =>
    by_cases hinv : (clipStep q r).inverted
    · have hall : (stepAll q (r :: r' :: rs)).inverted :=
        stepAll_inverted_mono hinv (r' :: rs)
      rw [if_pos hall]
      simp [clipGo, hinv]
    · have h1 : clipGo q (r :: r' :: rs) = clipGo (clipStep q r) (r' :: rs) := by
        simp [clipGo, hinv]
      rw [h1, ih]
      rfl

theorem clipStep_of_empty (r : Rectangle) : (clipStep Box.empty_box.rect r).inverted := by
  left
  show min Coord.negInf r.right < max Coord.posInf r.left
  rw [min_eq_left (Coord.negInf_le _), max_eq_left (Coord.le_posInf _)]
  exact Coord.negInf_lt_posInf

theorem empty_box_clip_cons (r : Rectangle) (rs : List Rectangle) :
    Box.empty_box.clip (r :: rs) = Box.empty_box := by
  show (if (clipStep Box.empty_box.rect r).inverted then Box.empty_box
        else clipGo (clipStep Box.empty_box.rect r) rs) = Box.empty_box
  rw [if_pos (clipStep_of_empty r)]

/-- C1: the `empty_box` sentinel is the unique normal form of degenerate
intersections.  If, over any non-empty prefix of the rectangle sequence, the
running intersection computed by `Box.clip` becomes inverted, the result of
the whole clip is exactly `Box.empty_box`; and clipping `Box.empty_box`
against any non-empty sequence of rectangles yields `Box.empty_box` again. -/
theorem clip_empty_box_normal_form :
    (∀ (b : Box) (p s : List Rectangle), p ≠ [] → (stepAll b.rect p).inverted →
      b.clip (p ++ s) = Box.empty_box) ∧
    (∀ rs : List Rectangle, rs ≠ [] → Box.empty_box.clip rs = Box.empty_box) := by
  constructor
  · intro b p s hp hinv
    rcases p with _ | ⟨r, p'⟩
    · exact absurd rfl hp
    · have hall : (stepAll b.rect (r :: (p' ++ s))).inverted := by
        have h2 := stepAll_inverted_mono hinv s
        rw [← stepAll_append] at h2
        exact h2
      show clipGo b.rect (r :: (p' ++ s)) = Box.empty_box
      rw [clipGo_cons_eq, if_pos hall]
  · intro rs h
    rcases rs with _ | ⟨r, rs'⟩
    · exact absurd rfl h
    · exact empty_box_clip_cons r rs'

theorem clipStep_right_comm (q r1 r2 : Rectangle) :
    clipStep (clipStep q r1) r2 = clipStep (clipStep q r2) r1 := by
  unfold clipStep Rectangle.left Rectangle.top Rectangle.right Rectangle.bottom
  exact congr (congr (congr (congrArg Rectangle.mk
    (Max.right_comm q.x1 r1.x1 r2.x1)) (Max.right_comm q.y1 r1.y1 r2.y1))
    (min_right_comm q.x2 r1.x2 r2.x2)) (min_right_comm q.y2 r1.y2 r2.y2)

/-- C3: clipping is order-independent and composes.  For every box `b` and
all rectangles `r1`, `r2`: `b.clip(r1, r2) == b.clip(r1).clip(r2)` and
`b.clip(r1, r2) == b.clip(r2, r1)`, even though evaluation is sequential with
an early exit to the `empty_box` sentinel. -/
theorem clip_order_independent (b : Box) (r1 r2 : Rectangle) :
    b.clip [r1, r2] = (b.clip [r1]).clip [r2] ∧ b.clip [r1, r2] = b.clip [r2, r1] := by
  constructor
  · by_cases h1 : (clipStep b.rect r1).inverted
    · have hl : b.clip [r1, r2] = Box.empty_box := by
        show (if (clipStep b.rect r1).inverted then Box.empty_box
              else clipGo (clipStep b.rect r1) [r2]) = Box.empty_box
        rw [if_pos h1]
      have hr : b.clip [r1] = Box.empty_box := by
        show (if (clipStep b.rect r1).inverted then Box.empty_box
              else clipGo (clipStep b.rect r1) []) = Box.empty_box
        rw [if_pos h1]
      rw [hl, hr, empty_box_clip_cons]
    · have hl : b.clip [r1, r2] = clipGo (clipStep b.rect r1) [r2] := by
        show (if (clipStep b.rect r1).inverted then Box.empty_box
              else clipGo (clipStep b.rect r1) [r2]) = _
        rw [if_neg h1]
      have hr : b.clip [r1] = Box.mk (clipStep b.rect r1) none none none none := by
        show (if (clipStep b.rect r1).inverted then Box.empty_box
              else clipGo (clipStep b.rect r1) []) = _
        rw [if_neg h1]
        rfl
      rw [hl, hr]
      rfl
  · show clipGo b.rect [r1, r2] = clipGo b.rect [r2, r1]
    rw [clipGo_cons_eq, clipGo_cons_eq]
    have hq : stepAll b.rect [r1, r2] = stepAll b.rect [r2, r1] := by
      show clipStep (clipStep b.rect r1) r2 = clipStep (clipStep b.rect r2) r1
      exact clipStep_right_comm b.rect r1 r2
    rw [hq]

/-- C4, counterexample: for the inverted rectangle `r = (5, 0, 0, 5)`
(no invariant `x1 ≤ x2` is enforced by the type), `Box(r).clip(r)` is the
`empty_box` sentinel, not `Box(r)`. -/
theorem clip_self_not_identity :
    ¬ ((Box.mk (Rectangle.mk (Coord.fin 5) (Coord.fin 0) (Coord.fin 0) (Coord.fin 5))
          none none none none).clip
        [Rectangle.mk (Coord.fin 5) (Coord.fin 0) (Coord.fin 0) (Coord.fin 5)] =
      Box.mk (Rectangle.mk (Coord.fin 5) (Coord.fin 0) (Coord.fin 0) (Coord.fin 5))
        none none none none) := by decide

/-- C4 (amended): clipping a box against its own rectangle is the identity
for every rectangle that is not inverted (`x1 ≤ x2` and `y1 ≤ y2`); for an
inverted rectangle the result is the `empty_box` sentinel instead. -/
theorem clip_self_identity (r : Rectangle) (h : ¬ r.inverted) :
    (Box.mk r none none none none).clip [r] = Box.mk r none none none none := by
  have hs : clipStep r r = r := by
    unfold clipStep Rectangle.left Rectangle.top Rectangle.right Rectangle.bottom
    cases r
    simp
  show (if (clipStep r r).inverted then Box.empty_box
        else clipGo (clipStep r r) []) = _
  rw [hs, if_neg h]
  rfl

theorem clip_self_identity_witness :
    ¬ (Rectangle.mk (Coord.fin 0) (Coord.fin 0) (Coord.fin 1) (Coord.fin 1)).inverted ∧
    (Box.mk (Rectangle.mk (Coord.fin 0) (Coord.fin 0) (Coord.fin 1) (Coord.fin 1))
        none none none none).clip
      [Rectangle.mk (Coord.fin 0) (Coord.fin 0) (Coord.fin 1) (Coord.fin 1)] =
    Box.mk (Rectangle.mk (Coord.fin 0) (Coord.fin 0) (Coord.fin 1) (Coord.fin 1))
      none none none none :=
  ⟨by decide, clip_self_identity _ (by decide)⟩

/-- C10: `clip` with zero rectangle arguments returns a fresh box carrying
exactly the caller's rectangle with all metadata dropped; no inversion check
is performed on that path, so a box whose own rectangle is inverted (and is
not the sentinel rectangle) clips with zero arguments to a box carrying that
inverted rectangle, not to the `empty_box` sentinel. -/
theorem clip_nil_fresh :
    (∀ b : Box, b.clip [] = Box.mk b.rect none none none none) ∧
    (∀ b : Box, b.rect.inverted → b.rect ≠ Box.empty_box.rect →
      b.clip [] ≠ Box.empty_box) := by
  constructor
  · intro b
    rfl
  · intro b _ hne h
    have h2 : (b.clip []).rect = Box.empty_box.rect := congrArg Box.rect h
    exact hne h2

theorem clip_nil_fresh_witness :
    (Box.mk (Rectangle.mk (Coord.fin 5) (Coord.fin 0) (Coord.fin 0) (Coord.fin 5))
        (some "x") none none none).clip [] ≠ Box.empty_box :=
  clip_nil_fresh.2 _ (by decide) (by decide)

theorem clip_empty_box_normal_form_witness :
    ([Rectangle.mk (Coord.fin 2) (Coord.fin 0) (Coord.fin 3) (Coord.fin 1)] ≠ ([] : List Rectangle)) ∧
    (Box.mk (Rectangle.mk (Coord.fin 0) (Coord.fin 0) (Coord.fin 1) (Coord.fin 1)) none none none none).clip
      ([Rectangle.mk (Coord.fin 2) (Coord.fin 0) (Coord.fin 3) (Coord.fin 1)] ++
        [Rectangle.mk (Coord.fin 0) (Coord.fin 0) (Coord.fin 9) (Coord.fin 9)]) = Box.empty_box ∧
    Box.empty_box.clip [Rectangle.mk (Coord.fin 0) (Coord.fin 0) (Coord.fin 1) (Coord.fin 1)] = Box.empty_box :=
  ⟨by decide,
   clip_empty_box_normal_form.1 _ _ _ (by decide) (by decide),
   clip_empty_box_normal_form.2 _ (by decide)⟩

/-- C2: for boxes with non-null text, `is_connected_to` returns `false` when
either text strips to empty; otherwise, with finite `self.right` and
`next.left`, it returns `true` exactly when `barycenter_y` of the two boxes
are exactly equal and `|self.right - next.left|` is strictly within a
tolerance of `0.5` units, widened to `10` units when `self.text` ends with an
open parenthesis. -/
theorem is_connected_to_spec :
    ∀ (self nxt : Box) (st nt : String),
      self.text = some st → nxt.text = some nt →
      (((pyStrip st = "" ∨ pyStrip nt = "") → self.is_connected_to nxt = some false) ∧
       (∀ r l : ℚ, self.right = Coord.fin r → nxt.left = Coord.fin l →
         (self.is_connected_to nxt = some true ↔
           (pyStrip st ≠ "" ∧ pyStrip nt ≠ "" ∧ self.barycenter_y = nxt.barycenter_y ∧
            |r - l| < (if endsWithOpenParen st then (10 : ℚ) else 1/2))))) := by
  intro self nxt st nt hs hn
  have hdef : self.is_connected_to nxt =
      (if pyStrip st = "" then some false
       else if pyStrip nt = "" then some false
       else some (decide (self.barycenter_y = nxt.barycenter_y) &&
         coordNear self.right nxt.left
           (if endsWithOpenParen st then (10 : ℚ) else 1/2))) := by
    unfold Box.is_connected_to
    rw [hs, hn]
  constructor
  · intro hws
    by_cases h1 : pyStrip st = ""
    · rw [hdef, if_pos h1]
    · have h2 : pyStrip nt = "" := hws.resolve_left h1
      rw [hdef, if_neg h1, if_pos h2]
  · intro r l hr hl
    by_cases h1 : pyStrip st = ""
    · rw [hdef, if_pos h1]
      simp [h1]
    · by_cases h2 : pyStrip nt = ""
      · rw [hdef, if_neg h1, if_pos h2]
        simp [h2]
      · rw [hdef, if_neg h1, if_neg h2, hr, hl]
        simp [h1, h2, coordNear]

theorem is_connected_to_spec_witness :
    (Box.mk (Rectangle.mk (Coord.fin 0) (Coord.fin 0) (Coord.fin 1) (Coord.fin 1))
        (some "ab") none (some 5) none).is_connected_to
      (Box.mk (Rectangle.mk (Coord.fin (14/10)) (Coord.fin 0) (Coord.fin 2) (Coord.fin 1))
        (some "cd") none (some 5) none) = some true := by
  have h := (is_connected_to_spec
    (Box.mk (Rectangle.mk (Coord.fin 0) (Coord.fin 0) (Coord.fin 1) (Coord.fin 1))
      (some "ab") none (some 5) none)
    (Box.mk (Rectangle.mk (Coord.fin (14/10)) (Coord.fin 0) (Coord.fin 2) (Coord.fin 1))
      (some "cd") none (some 5) none)
    "ab" "cd" rfl rfl).2 1 (14/10) rfl rfl
  refine h.mpr ⟨?h1, ?h2, rfl, ?h3⟩
  · decide
  · decide
  · have he : endsWithOpenParen "ab" = false := by decide
    rw [he]
    norm_num [abs_lt]

/-- C9: `extend` leaves the box with its text being the old text concatenated
with the other box's text and its right edge being the other box's right
edge, while left, top, bottom, `barycenter` and `barycenter_y` (and the
classification) are unchanged. -/
theorem extend_spec (self nxt : Box) (st nt : String)
    (hs : self.text = some st) (hn : nxt.text = some nt) :
    ∃ res, self.extend nxt = some res ∧
      res.text = some (st ++ nt) ∧
      res.right = nxt.right ∧
      res.left = self.left ∧ res.top = self.top ∧ res.bottom = self.bottom ∧
      res.barycenter = self.barycenter ∧ res.barycenter_y = self.barycenter_y ∧
      res.classname = self.classname := by
  unfold Box.extend
  rw [hs, hn]
  exact ⟨_, rfl, rfl, rfl, rfl, rfl, rfl, rfl, rfl, rfl⟩

theorem extend_spec_witness :
    ∃ res, (Box.mk (Rectangle.mk (Coord.fin 0) (Coord.fin 0) (Coord.fin 1) (Coord.fin 1))
        (some "fo") none (some 5) none).extend
      (Box.mk (Rectangle.mk (Coord.fin 1) (Coord.fin 0) (Coord.fin 2) (Coord.fin 1))
        (some "od") none (some 5) none) = some res ∧
      res.text = some ("fo" ++ "od") ∧
      res.right = (Box.mk (Rectangle.mk (Coord.fin 1) (Coord.fin 0) (Coord.fin 2) (Coord.fin 1))
        (some "od") none (some 5) none).right ∧
      res.left = (Box.mk (Rectangle.mk (Coord.fin 0) (Coord.fin 0) (Coord.fin 1) (Coord.fin 1))
        (some "fo") none (some 5) none).left ∧
      res.top = (Box.mk (Rectangle.mk (Coord.fin 0) (Coord.fin 0) (Coord.fin 1) (Coord.fin 1))
        (some "fo") none (some 5) none).top ∧
      res.bottom = (Box.mk (Rectangle.mk (Coord.fin 0) (Coord.fin 0) (Coord.fin 1) (Coord.fin 1))
        (some "fo") none (some 5) none).bottom ∧
      res.barycenter = (Box.mk (Rectangle.mk (Coord.fin 0) (Coord.fin 0) (Coord.fin 1) (Coord.fin 1))
        (some "fo") none (some 5) none).barycenter ∧
      res.barycenter_y = (Box.mk (Rectangle.mk (Coord.fin 0) (Coord.fin 0) (Coord.fin 1) (Coord.fin 1))
        (some "fo") none (some 5) none).barycenter_y ∧
      res.classname = (Box.mk (Rectangle.mk (Coord.fin 0) (Coord.fin 0) (Coord.fin 1) (Coord.fin 1))
        (some "fo") none (some 5) none).classname :=
  extend_spec _ _ "fo" "od" rfl rfl

/-- `BoxList.inside(rect)` from `boxes.py`: the sublist of boxes `box` with
`rect.left <= box.left <= box.right <= rect.right` and
`rect.top <= box.top <= box.bottom <= rect.bottom`. -/
def BoxList.inside (bl : List Box) (rect : Rectangle) : List Box :=
  bl.filter (fun box =>
    decide (rect.left ≤ box.left ∧ box.left ≤ box.right ∧ box.right ≤ rect.right ∧
      rect.top ≤ box.top ∧ box.top ≤ box.bottom ∧ box.bottom ≤ rect.bottom))

/-- `BoxList.bounds()` from `boxes.py`:
`Box(Rectangle(x1=min(lefts), y1=min(tops), x2=max(rights), y2=max(bottoms)))`.
Python's `min`/`max` raise `ValueError` on an empty sequence, hence `none`
for the empty list. -/
def BoxList.bounds (bl : List Box) : Option Box :=
  match bl with
  | [] => none
  | b :: bs => some (Box.mk (Rectangle.mk
      ((bs.map Box.left).foldl min b.left)
      ((bs.map Box.top).foldl min b.top)
      ((bs.map Box.right).foldl max b.right)
      ((bs.map Box.bottom).foldl max b.bottom)) none none none none)

/-- `BoxList.purge_empty_text()` from `boxes.py`: keep the boxes satisfying
`box.text.strip() or box.classname != 'LTTextLineHorizontal'`.  Accessing a
missing `text` or `classname` raises in Python, modelled as `none`. -/
def BoxList.purge_empty_text : List Box → Option (List Box)
  | [] => some []
  | b :: rest =>
    match b.text, b.classname with
    | some t, some c =>
      match BoxList.purge_empty_text rest with
      | none => none
      | some tail =>
        if pyStrip t ≠ "" ∨ c ≠ "LTTextLineHorizontal" then some (b :: tail)
        else some tail
    | _, _ => none

theorem foldl_min_le {α : Type} [LinearOrder α] (a : α) (l : List α) :
    ∀ x ∈ a :: l, l.foldl min a ≤ x := by
  induction l generalizing a with
  | nil =>
    intro x hx
    rw [List.mem_singleton] at hx
    subst hx
    exact le_refl _
  | cons b l ih =>
    intro x hx
    have hh : List.foldl min (min a b) l ≤ min a b :=
      ih (min a b) (min a b) (List.mem_cons_self _ _)
    rcases List.mem_cons.mp hx with rfl | hx'
    · exact le_trans hh (min_le_left _ _)
    · rcases List.mem_cons.mp hx' with rfl | hx''
      · exact le_trans hh (min_le_right _ _)
      · exact ih (min a b) x (List.mem_cons_of_mem _ hx'')

theorem foldl_min_mem {α : Type} [LinearOrder α] (a : α) (l : List α) :
    l.foldl min a ∈ a :: l := by
  induction l generalizing a with
  | nil => exact List.mem_cons_self _ _
  | cons b l ih =>
    show List.foldl min (min a b) l ∈ a :: b :: l
    rcases List.mem_cons.mp (ih (min a b)) with he | hm
    · rw [he]
      rcases min_choice a b with h | h <;> rw [h]
      · exact List.mem_cons_self _ _
      · exact List.mem_cons_of_mem _ (List.mem_cons_self _ _)
    · exact List.mem_cons_of_mem _ (List.mem_cons_of_mem _ hm)

theorem le_foldl_max {α : Type} [LinearOrder α] (a : α) (l : List α) :
    ∀ x ∈ a :: l, x ≤ l.foldl max a := by
  induction l generalizing a with
  | nil =>
    intro x hx
    rw [List.mem_singleton] at hx
    subst hx
    exact le_refl _
  | cons b l ih =>
    intro x hx
    have hh : max a b ≤ List.foldl max (max a b) l :=
      ih (max a b) (max a b) (List.mem_cons_self _ _)
    rcases List.mem_cons.mp hx with rfl | hx'
    · exact le_trans (le_max_left _ _) hh
    · rcases List.mem_cons.mp hx' with rfl | hx''
      · exact le_trans (le_max_right _ _) hh
      · exact ih (max a b) x (List.mem_cons_of_mem _ hx'')

theorem foldl_max_mem {α : Type} [LinearOrder α] (a : α) (l : List α) :
    l.foldl max a ∈ a :: l := by
  induction l generalizing a with
  | nil => exact List.mem_cons_self _ _
  | cons b l ih =>
    show List.foldl max (max a b) l ∈ a :: b :: l
    rcases List.mem_cons.mp (ih (max a b)) with he | hm
    · rw [he]
      rcases max_choice a b with h | h <;> rw [h]
      · exact List.mem_cons_self _ _
      · exact List.mem_cons_of_mem _ (List.mem_cons_self _ _)
    · exact List.mem_cons_of_mem _ (List.mem_cons_of_mem _ hm)

/-- C6: for a non-empty list, `bounds` returns a box whose rectangle is the
tightest enclosing rectangle: each edge bounds every contained box and is
attained by some contained box.  Over rectangles `(0,0,2,2)` and `(1,1,5,5)`
it returns `(0,0,5,5)`; on the empty list it fails with an error (`none`). -/
theorem bounds_spec :
    (BoxList.bounds [] = none) ∧
    (∀ (b : Box) (bs : List Box), ∃ bb, BoxList.bounds (b :: bs) = some bb ∧
      (∀ x ∈ b :: bs, bb.left ≤ x.left ∧ bb.top ≤ x.top ∧
        x.right ≤ bb.right ∧ x.bottom ≤ bb.bottom) ∧
      ((∃ x ∈ b :: bs, bb.left = x.left) ∧ (∃ x ∈ b :: bs, bb.top = x.top) ∧
       (∃ x ∈ b :: bs, bb.right = x.right) ∧ (∃ x ∈ b :: bs, bb.bottom = x.bottom))) ∧
    (BoxList.bounds
        [Box.mk (Rectangle.mk (Coord.fin 0) (Coord.fin 0) (Coord.fin 2) (Coord.fin 2))
          none none none none,
         Box.mk (Rectangle.mk (Coord.fin 1) (Coord.fin 1) (Coord.fin 5) (Coord.fin 5))
          none none none none] =
      some (Box.mk (Rectangle.mk (Coord.fin 0) (Coord.fin 0) (Coord.fin 5) (Coord.fin 5))
        none none none none)) := by
  refine ⟨rfl, ?gen, by decide⟩
  intro b bs
  refine ⟨_, rfl, ?bound, ?left, ?top, ?right, ?bottom⟩
  · intro x hx
    exact ⟨foldl_min_le (Box.left b) (bs.map Box.left) x.left
        (List.mem_map.mpr ⟨x, hx, rfl⟩),
      foldl_min_le (Box.top b) (bs.map Box.top) x.top
        (List.mem_map.mpr ⟨x, hx, rfl⟩),
      le_foldl_max (Box.right b) (bs.map Box.right) x.right
        (List.mem_map.mpr ⟨x, hx, rfl⟩),
      le_foldl_max (Box.bottom b) (bs.map Box.bottom) x.bottom
        (List.mem_map.mpr ⟨x, hx, rfl⟩)⟩
  · have hm : (bs.map Box.left).foldl min b.left ∈ (b :: bs).map Box.left :=
      foldl_min_mem (Box.left b) (bs.map Box.left)
    obtain ⟨x, hx, he⟩ := List.mem_map.mp hm
    exact ⟨x, hx, he.symm⟩
  · have hm : (bs.map Box.top).foldl min b.top ∈ (b :: bs).map Box.top :=
      foldl_min_mem (Box.top b) (bs.map Box.top)
    obtain ⟨x, hx, he⟩ := List.mem_map.mp hm
    exact ⟨x, hx, he.symm⟩
  · have hm : (bs.map Box.right).foldl max b.right ∈ (b :: bs).map Box.right :=
      foldl_max_mem (Box.right b) (bs.map Box.right)
    obtain ⟨x, hx, he⟩ := List.mem_map.mp hm
    exact ⟨x, hx, he.symm⟩
  · have hm : (bs.map Box.bottom).foldl max b.bottom ∈ (b :: bs).map Box.bottom :=
      foldl_max_mem (Box.bottom b) (bs.map Box.bottom)
    obtain ⟨x, hx, he⟩ := List.mem_map.mp hm
    exact ⟨x, hx, he.symm⟩

theorem bounds_spec_witness :
    ∃ bb, BoxList.bounds
        [Box.mk (Rectangle.mk (Coord.fin 0) (Coord.fin 0) (Coord.fin 2) (Coord.fin 2))
          none none none (some "LTRect")] = some bb ∧
      (∀ x ∈ [Box.mk (Rectangle.mk (Coord.fin 0) (Coord.fin 0) (Coord.fin 2) (Coord.fin 2))
          none none none (some "LTRect")], bb.left ≤ x.left ∧ bb.top ≤ x.top ∧
        x.right ≤ bb.right ∧ x.bottom ≤ bb.bottom) ∧
      ((∃ x ∈ [Box.mk (Rectangle.mk (Coord.fin 0) (Coord.fin 0) (Coord.fin 2) (Coord.fin 2))
          none none none (some "LTRect")], bb.left = x.left) ∧
       (∃ x ∈ [Box.mk (Rectangle.mk (Coord.fin 0) (Coord.fin 0) (Coord.fin 2) (Coord.fin 2))
          none none none (some "LTRect")], bb.top = x.top) ∧
       (∃ x ∈ [Box.mk (Rectangle.mk (Coord.fin 0) (Coord.fin 0) (Coord.fin 2) (Coord.fin 2))
          none none none (some "LTRect")], bb.right = x.right) ∧
       (∃ x ∈ [Box.mk (Rectangle.mk (Coord.fin 0) (Coord.fin 0) (Coord.fin 2) (Coord.fin 2))
          none none none (some "LTRect")], bb.bottom = x.bottom)) :=
  bounds_spec.2.1
    (Box.mk (Rectangle.mk (Coord.fin 0) (Coord.fin 0) (Coord.fin 2) (Coord.fin 2))
      none none none (some "LTRect")) []

/-- C7: `inside(rect)` returns a new list containing exactly the boxes that
are strictly contained in `rect` with inclusive bounds
(`rect.left ≤ box.left ≤ box.right ≤ rect.right` and
`rect.top ≤ box.top ≤ box.bottom ≤ rect.bottom`), in input order (a sublist
of the input); a box that only partially overlaps, such as `(-1,0,1,1)`
against `rect=(0,0,10,10)`, is excluded. -/
theorem inside_spec :
    (∀ (bl : List Box) (rect : Rectangle),
      (BoxList.inside bl rect).Sublist bl ∧
      (∀ b, b ∈ BoxList.inside bl rect ↔
        (b ∈ bl ∧ rect.left ≤ b.left ∧ b.left ≤ b.right ∧ b.right ≤ rect.right ∧
          rect.top ≤ b.top ∧ b.top ≤ b.bottom ∧ b.bottom ≤ rect.bottom))) ∧
    BoxList.inside
      [Box.mk (Rectangle.mk (Coord.fin (-1)) (Coord.fin 0) (Coord.fin 1) (Coord.fin 1))
        none none none none]
      (Rectangle.mk (Coord.fin 0) (Coord.fin 0) (Coord.fin 10) (Coord.fin 10)) = [] := by
  constructor
  · intro bl rect
    constructor
    · exact List.filter_sublist bl
    · intro b
      rw [BoxList.inside, List.mem_filter, decide_eq_true_iff]
  · decide

theorem inside_spec_witness :
    Box.mk (Rectangle.mk (Coord.fin 1) (Coord.fin 1) (Coord.fin 2) (Coord.fin 2))
        none none none none ∈
      BoxList.inside
        [Box.mk (Rectangle.mk (Coord.fin 1) (Coord.fin 1) (Coord.fin 2) (Coord.fin 2))
          none none none none]
        (Rectangle.mk (Coord.fin 0) (Coord.fin 0) (Coord.fin 10) (Coord.fin 10)) :=
  ((inside_spec.1 _ _).2 _).mpr
    ⟨List.mem_cons_self _ _, by decide, by decide, by decide, by decide, by decide, by decide⟩

/-- C8: for a list of boxes that all carry a text and a classification,
`purge_empty_text` returns a new list (a sublist of the input, in input
order) keeping exactly the boxes whose stripped text is non-empty or whose
classification is not `LTTextLineHorizontal`; in particular a box with empty
text but classification `LTRect` is retained, and a box with
whitespace-only text and classification `LTTextLineHorizontal` is removed. -/
theorem purge_empty_text_spec :
    (∀ bl : List Box, (∀ b ∈ bl, b.text ≠ none ∧ b.classname ≠ none) →
      ∃ res, BoxList.purge_empty_text bl = some res ∧ res.Sublist bl ∧
        (∀ b, b ∈ res ↔ (b ∈ bl ∧
          ((∃ t, b.text = some t ∧ pyStrip t ≠ "") ∨
            b.classname ≠ some "LTTextLineHorizontal")))) ∧
    (BoxList.purge_empty_text
        [Box.mk (Rectangle.mk (Coord.fin 0) (Coord.fin 0) (Coord.fin 1) (Coord.fin 1))
          (some "") none none (some "LTRect")] =
      some [Box.mk (Rectangle.mk (Coord.fin 0) (Coord.fin 0) (Coord.fin 1) (Coord.fin 1))
          (some "") none none (some "LTRect")]) ∧
    (BoxList.purge_empty_text
        [Box.mk (Rectangle.mk (Coord.fin 0) (Coord.fin 0) (Coord.fin 1) (Coord.fin 1))
          (some "  ") none none (some "LTTextLineHorizontal")] = some []) := by
  refine ⟨?gen, by decide, by decide⟩
  intro bl
  induction bl with
  | nil =>
    intro _
    exact ⟨[], rfl, List.Sublist.refl _, by simp⟩
  | cons b rest ih =>
    intro hdef
    obtain ⟨ht, hc⟩ := hdef b (List.mem_cons_self _ _)
    obtain ⟨t, ht'⟩ := Option.ne_none_iff_exists'.mp ht
    obtain ⟨c, hc'⟩ := Option.ne_none_iff_exists'.mp hc
    obtain ⟨res, hres, hsub, hmem⟩ := ih (fun x hx => hdef x (List.mem_cons_of_mem _ hx))
    by_cases hk : pyStrip t ≠ "" ∨ c ≠ "LTTextLineHorizontal"
    · refine ⟨b :: res, ?e, List.Sublist.cons₂ _ hsub, ?m⟩
      · show BoxList.purge_empty_text (b :: rest) = _
        simp only [BoxList.purge_empty_text, ht', hc', hres]
        rw [if_pos hk]
      · intro x
        constructor
        · intro hx
          rcases List.mem_cons.mp hx with rfl | hx'
          · refine ⟨List.mem_cons_self _ _, ?p⟩
            rcases hk with hk | hk
            · exact Or.inl ⟨t, ht', hk⟩
            · refine Or.inr ?q
              rw [hc']
              intro he
              exact hk (Option.some_injective _ he)
          · obtain ⟨hx'', hp⟩ := (hmem x).mp hx'
            exact ⟨List.mem_cons_of_mem _ hx'', hp⟩
        · intro ⟨hx, hp⟩
          rcases List.mem_cons.mp hx with rfl | hx'
          · exact List.mem_cons_self _ _
          · exact List.mem_cons_of_mem _ ((hmem x).mpr ⟨hx', hp⟩)
    · push_neg at hk
      obtain ⟨hk1, hk2⟩ := hk
      refine ⟨res, ?e2, ?s2, ?m2⟩
      · show BoxList.purge_empty_text (b :: rest) = some res
        simp only [BoxList.purge_empty_text, ht', hc', hres]
        rw [if_neg]
        push_neg
        exact ⟨hk1, hk2⟩
      · exact List.Sublist.cons b hsub
      · intro x
        constructor
        · intro hx
          obtain ⟨hx', hp⟩ := (hmem x).mp hx
          exact ⟨List.mem_cons_of_mem _ hx', hp⟩
        · intro ⟨hx, hp⟩
          rcases List.mem_cons.mp hx with rfl | hx'
          · exfalso
            rcases hp with ⟨t', ht'', hne⟩ | hne
            · rw [ht'] at ht''
              exact hne (by rw [Option.some_injective _ ht''.symm, hk1])
            · rw [hc', hk2] at hne
              exact hne rfl
          · exact (hmem x).mpr ⟨hx', hp⟩

theorem purge_empty_text_spec_witness :
    ∃ res, BoxList.purge_empty_text
        [Box.mk (Rectangle.mk (Coord.fin 0) (Coord.fin 0) (Coord.fin 1) (Coord.fin 1))
          (some "") none none (some "LTRect")] = some res ∧
      res.Sublist
        [Box.mk (Rectangle.mk (Coord.fin 0) (Coord.fin 0) (Coord.fin 1) (Coord.fin 1))
          (some "") none none (some "LTRect")] ∧
      (∀ b, b ∈ res ↔
        (b ∈ [Box.mk (Rectangle.mk (Coord.fin 0) (Coord.fin 0) (Coord.fin 1) (Coord.fin 1))
            (some "") none none (some "LTRect")] ∧
          ((∃ t, b.text = some t ∧ pyStrip t ≠ "") ∨
            b.classname ≠ some "LTTextLineHorizontal"))) :=
  purge_empty_text_spec.1 _ (by decide)

/-- Python's built-in `round` on the rationals: round half to even
(banker's rounding). -/
def pyRound (q : ℚ) : ℤ :=
  if q - ⌊q⌋ < 1/2 then ⌊q⌋
  else if 1/2 < q - ⌊q⌋ then ⌊q⌋ + 1
  else if ⌊q⌋ % 2 = 0 then ⌊q⌋ else ⌊q⌋ + 1

/-- `_rounder(val, tol)` from `boxes.py`: `round((1.0*val)/tol) * tol`. -/
def _rounder (val tol : ℚ) : ℚ := (pyRound (val / tol) : ℚ) * tol

/-- `Histogram` from `boxes.py`: a `Counter` over numeric keys.  A counter
built by counting (`Counter(iterable)`, and anything `Counter.__add__`
produces) has only positive counts, so it is exactly a finite multiset of
its keys: the count of `k` is the multiplicity of `k`, counter addition is
multiset addition, and dict equality of such counters is multiset
equality. -/
abbrev Histogram : Type := Multiset ℚ

/-- `Histogram.rounder(tol)` from `boxes.py`: starting from an empty counter
`c`, for every distinct key `item` of `self` (`for item in self` iterates
the counter's keys) add the one-key counter
`Histogram({_rounder(item, tol): self[item]})`, i.e. `self[item]` copies of
the rounded key. -/
def Histogram.rounder (h : Histogram) (tol : ℚ) : Histogram :=
  h.dedup.bind fun item => Multiset.replicate (h.count item) (_rounder item tol)

theorem pyRound_intCast (n : ℤ) : pyRound (n : ℚ) = n := by
  unfold pyRound
  rw [Int.floor_intCast, sub_self]
  rw [if_pos]
  norm_num

theorem _rounder_idem {tol : ℚ} (ht : tol ≠ 0) (val : ℚ) :
    _rounder (_rounder val tol) tol = _rounder val tol := by
  unfold _rounder
  rw [mul_div_cancel_right₀ _ ht, pyRound_intCast]

theorem rounder_eq_sum (h : Histogram) (tol : ℚ) :
    h.rounder tol =
      ∑ a ∈ h.toFinset, Multiset.replicate (h.count a) (_rounder a tol) := rfl

theorem rounder_eq_map (h : Histogram) (tol : ℚ) :
    h.rounder tol = h.map fun k => _rounder k tol := by
  rw [rounder_eq_sum]
  conv_rhs => rw [← Multiset.toFinset_sum_count_nsmul_eq h]
  rw [← Multiset.coe_mapAddMonoidHom]
  rw [map_sum (Multiset.mapAddMonoidHom fun k => _rounder k tol)]
  refine Finset.sum_congr rfl ?c
  intro a _
  simp [Multiset.coe_mapAddMonoidHom, Multiset.map_nsmul, Multiset.map_singleton,
    Multiset.nsmul_singleton]

/-- C5: histogram tolerance-rounding is idempotent.  For every histogram `h`
and positive tolerance `tol`, `rounder` replaces every key `k` by
`round(k / tol) * tol`, summing the counts of keys that collide after
rounding (stated as the count of every key of the result), and
`h.rounder(tol).rounder(tol) == h.rounder(tol)`. -/
theorem rounder_idempotent :
    ∀ (h : Histogram) (tol : ℚ), 0 < tol →
      ((∀ k, (h.rounder tol).count k =
          ∑ x ∈ h.toFinset.filter (fun x => _rounder x tol = k), h.count x) ∧
       (h.rounder tol).rounder tol = h.rounder tol) := by
  intro h tol htpos
  constructor
  · intro k
    rw [rounder_eq_sum, Multiset.count_sum']
    rw [Finset.sum_congr rfl
      (fun a _ => Multiset.count_replicate k (_rounder a tol) (h.count a))]
    exact (Finset.sum_filter _ _).symm
  · have ht : tol ≠ 0 := ne_of_gt htpos
    rw [rounder_eq_map, rounder_eq_map, Multiset.map_map]
    exact Multiset.map_congr rfl (fun x _ => _rounder_idem ht x)

theorem rounder_idempotent_witness :
    (0 : ℚ) < 1 ∧
    ((∀ k, (({3/2, 3/2, 1} : Histogram).rounder 1).count k =
        ∑ x ∈ ({3/2, 3/2, 1} : Histogram).toFinset.filter (fun x => _rounder x 1 = k),
          ({3/2, 3/2, 1} : Histogram).count x) ∧
     ((({3/2, 3/2, 1} : Histogram).rounder 1).rounder 1 =
       ({3/2, 3/2, 1} : Histogram).rounder 1)) :=
  ⟨by norm_num, rounder_idempotent ({3/2, 3/2, 1} : Histogram) 1 (by norm_num)⟩
